import Mathlib

/-!
Verification development for the ATS resume analyzer (`src/app.py`).

The Python program is shallowly embedded: Python strings are modelled as
`List Char`, Python's built-in string operations (`str.split()`,
`str.strip()`, `str.lower()`, the substring operator `in`) are given
explicit executable definitions matching their documented semantics on the
ASCII inputs the program manipulates, exceptions are modelled with
`Except`/`Option`-valued inputs, and the fallible external collaborators
(PyPDF2 page extraction, pdf2image rasterization, pytesseract OCR, the
Gemini generation call) are modelled as explicit inputs to the embedded
functions.
-/

namespace ATS

/-- Whitespace predicate of Python's `str.split()` / `str.strip()`:
space, tab, newline, carriage return, vertical tab, form feed. -/
def pyIsSpace (c : Char) : Bool :=
  c = ' ' || c = '\t' || c = '\n' || c = '\r' || c = '\x0b' || c = '\x0c'

/-- Python `str.lower()` restricted to the ASCII range exercised by the
program (maps 'A'..'Z' to 'a'..'z', leaves everything else unchanged). -/
def pyLower (s : List Char) : List Char :=
  s.map Char.toLower

/-- Helper for the substring operator: does `pre` start `s`? -/
def isPre : List Char → List Char → Bool
  | [], _ => true
  | _ :: _, [] => false
  | a :: as, b :: bs => a = b && isPre as bs

/-- Python's substring operator `sub in s` (contiguous occurrence). -/
def containsSub (sub : List Char) : List Char → Bool
  | [] => sub.isEmpty
  | c :: rest => isPre sub (c :: rest) || containsSub sub rest

/-- Accumulator worker for `pySplit`; `acc` holds the current token
reversed. -/
def pySplitAux (acc : List Char) : List Char → List (List Char)
  | [] => if acc.isEmpty then [] else [acc.reverse]
  | c :: cs =>
    if pyIsSpace c then
      if acc.isEmpty then pySplitAux [] cs else acc.reverse :: pySplitAux [] cs
    else pySplitAux (c :: acc) cs

/-- Python `str.split()` with no separator: split on runs of whitespace,
producing no empty tokens. -/
def pySplit (s : List Char) : List (List Char) :=
  pySplitAux [] s

/-- Python `str.strip()`: remove leading and trailing whitespace. -/
def pyStrip (s : List Char) : List Char :=
  List.rdropWhile pyIsSpace (s.dropWhile pyIsSpace)

/-- The four named boolean compliance checks computed by
`ATSAnalyzer.perform_ats_checks` (insertion order of the Python dict). -/
structure Checks where
  keywordsPresent : Bool
  noComplexFormatting : Bool
  keySections : Bool
  readableLength : Bool
deriving DecidableEq

/-- Python `sum(checks.values())`: the number of true checks. -/
def checksTrueCount (c : Checks) : Nat :=
  (cond c.keywordsPresent 1 0) + (cond c.noComplexFormatting 1 0) +
    (cond c.keySections 1 0) + (cond c.readableLength 1 0)

/-- Embedding of `ATSAnalyzer.perform_ats_checks(pdf_text, job_description)`
(src/app.py lines 41-50): the four checks and the score
`sum(checks.values()) / len(checks) * 100` with `len(checks) = 4`. -/
def perform_ats_checks (pdf_text job_description : List Char) : ℚ × Checks :=
  let checks : Checks :=
    { keywordsPresent :=
        (pySplit (pyLower job_description)).any
          (fun keyword => containsSub keyword (pyLower pdf_text)),
      noComplexFormatting :=
        !(containsSub "table".data (pyLower pdf_text) ||
          containsSub "image".data (pyLower pdf_text)),
      keySections :=
        ["summary".data, "experience".data, "education".data].all
          (fun sec => containsSub sec (pyLower pdf_text)),
      readableLength := decide ((pySplit pdf_text).length < 1000) }
  ((checksTrueCount checks : ℚ) / 4 * 100, checks)

/-- One page of the parsed PDF, as seen by `extract_text_from_pdf`. -/
structure Page where
  /-- Result of `page.extract_text()`: `none` models the `None` return with
  which PyPDF2 signals a page it cannot extract (handled by `or ""` in the
  source). -/
  embedded : Option (List Char)
  /-- Result of `pytesseract.image_to_string` on this page's rasterized
  image (`convert_from_bytes` yields one image per page, in page order). -/
  ocr : List Char

/-- The uploaded byte stream together with the behavior of the fallible
external libraries on it. -/
structure UploadedFile where
  /-- `PdfReader(uploaded_file)`: the page list, or the message of the
  exception raised on a malformed, encrypted, truncated or empty stream. -/
  parsed : Except (List Char) (List Page)
  /-- Message of an exception raised by some `page.extract_text()` call
  during the page loop (caught by the enclosing `try`), if any. -/
  pageError : Option (List Char)
  /-- Message of an exception raised by `convert_from_bytes` or
  `pytesseract` during the OCR fallback (caught by the enclosing `try`),
  if any. -/
  ocrError : Option (List Char)

/-- The embedded-text accumulation loop of src/app.py lines 23-26:
`text = ""; for page in pdf_reader.pages: text += page.extract_text() or ""`. -/
def embeddedText (pages : List Page) : List Char :=
  pages.foldl (fun acc p => acc ++ p.embedded.getD []) []

/-- The OCR accumulation loop of src/app.py lines 31-33:
`for image in images: text += pytesseract.image_to_string(image) + "\n"`,
starting from the already-accumulated `text`. -/
def ocrAppend (pages : List Page) (text : List Char) : List Char :=
  pages.foldl (fun acc p => acc ++ (p.ocr ++ ['\n'])) text

/-- Embedding of `ATSAnalyzer.extract_text_from_pdf` (src/app.py lines
19-38). All exceptions raised inside the `try` body are modelled by the
error components of `UploadedFile` and are mapped to the `None` return of
the `except` clause; `none` is the extraction-failure outcome. -/
def extract_text_from_pdf (f : UploadedFile) : Option (List Char) :=
  match f.parsed with
  | .error _ => none
  | .ok pages =>
    match f.pageError with
    | some _ => none
    | none =>
      let text := embeddedText pages
      if pyStrip text = [] then
        match f.ocrError with
        | some _ => none
        | none =>
          let text2 := ocrAppend pages text
          if pyStrip text2 = [] then none else some (pyStrip text2)
      else some (pyStrip text)

/-- Behavior of the external generation collaborator on one invocation of
`model.generate_content`: it raises, or returns a response whose `.text`
is absent (`none`) or a string. -/
inductive GenOutcome where
  | raised (msg : List Char)
  | returned (text : Option (List Char))
deriving DecidableEq

/-- The placeholder string of src/app.py line 58. -/
def noResponseMessage : List Char :=
  "No response from Gemini API.".data

/-- Embedding of `ATSAnalyzer.get_gemini_response` (src/app.py lines
52-61): an exception is caught and `None` is returned; otherwise
`response.text if response.text else "No response from Gemini API."`
(Python truthiness: `None` and `""` are falsy). -/
def get_gemini_response (outcome : GenOutcome) : Option (List Char) :=
  match outcome with
  | .raised _ => none
  | .returned t =>
    match t with
    | none => some noResponseMessage
    | some s => some (if s.isEmpty then noResponseMessage else s)

/-- What `main` shows for the generation result (src/app.py lines 183-197):
`if response:` displays the text and offers the export button, otherwise
`st.error("Failed to retrieve AI analysis...")`. -/
inductive MainDisplay where
  | analysisShown (text : List Char)
  | generationErrorShown
deriving DecidableEq

/-- The `if response:` branch of `main` (Python truthiness on
`Optional[str]`: falsy iff `None` or empty). -/
def displayGeneration (response : Option (List Char)) : MainDisplay :=
  match response with
  | none => .generationErrorShown
  | some t => if t.isEmpty then .generationErrorShown else .analysisShown t

/-- Modelled from the spec: "concatenate recognized text with a newline
separator between pages" — the spec-side description of the OCR
concatenation, to be compared with the source's trailing-newline loop. -/
def newlineSep : List (List Char) → List Char
  | [] => []
  | [x] => x
  | x :: y :: ys => x ++ '\n' :: newlineSep (y :: ys)

/-- A page whose `extract_text()` error (a `None` return) has been replaced
by an empty string; used to state that the extractor treats a page-level
extraction error exactly as an empty page. -/
def normPage (p : Page) : Page :=
  { embedded := some (p.embedded.getD []), ocr := p.ocr }

/-- Concrete text with `n` whitespace-delimited one-letter tokens; used by
witnesses for the token-count check. -/
def repTok : Nat → List Char
  | 0 => []
  | n + 1 => 'a' :: ' ' :: repTok n

/-! Helper lemmas relating the executable embeddings of the Python string
primitives to their propositional characterizations. -/

/-- Correctness of the prefix test behind the substring operator. -/
theorem isPre_iff (sub l : List Char) : isPre sub l = true ↔ ∃ v, sub ++ v = l := by
  induction sub generalizing l with
  | nil => simp [isPre]
  | cons a as ih =>
    cases l with
    | nil => simp [isPre]
    | cons b bs =>
      simp only [isPre, Bool.and_eq_true, decide_eq_true_eq, ih, List.cons_append,
        List.cons.injEq]
      constructor
      · rintro ⟨rfl, v, rfl⟩
        exact ⟨v, rfl, rfl⟩
      · rintro ⟨v, rfl, rfl⟩
        exact ⟨rfl, v, rfl⟩

/-- Correctness of the substring operator: `containsSub sub s` holds exactly
when `sub` occurs contiguously inside `s`. -/
theorem containsSub_iff (sub s : List Char) :
    containsSub sub s = true ↔ ∃ u v, s = u ++ sub ++ v := by
  induction s with
  | nil =>
    simp only [containsSub, List.isEmpty_iff]
    constructor
    · rintro rfl
      exact ⟨[], [], rfl⟩
    · rintro ⟨u, v, huv⟩
      rcases List.append_eq_nil.1 huv.symm with ⟨h1, -⟩
      exact (List.append_eq_nil.1 h1).2
  | cons c rest ih =>
    simp only [containsSub, Bool.or_eq_true, isPre_iff, ih]
    constructor
    · rintro (⟨v, hv⟩ | ⟨u, v, rfl⟩)
      · exact ⟨[], v, by simp [← hv]⟩
      · exact ⟨c :: u, v, by simp⟩
    · rintro ⟨u, v, huv⟩
      cases u with
      | nil =>
        left
        exact ⟨v, by simpa using huv.symm⟩
      | cons x u' =>
        right
        simp only [List.cons_append, List.cons.injEq] at huv
        exact ⟨u', v, huv.2⟩

/-- Tokens produced by `pySplitAux` are never empty. -/
theorem pySplitAux_ne_nil (s : List Char) :
    ∀ (acc t : List Char), t ∈ pySplitAux acc s → t ≠ [] := by
  induction s with
  | nil =>
    intro acc t ht
    simp only [pySplitAux] at ht
    split at ht
    · simp at ht
    · rename_i hacc
      simp only [List.mem_singleton] at ht
      subst ht
      simpa [List.isEmpty_iff] using hacc
  | cons c cs ih =>
    intro acc t ht
    simp only [pySplitAux] at ht
    split at ht
    · split at ht
      · exact ih [] t ht
      · rename_i hacc
        rcases List.mem_cons.1 ht with rfl | ht'
        · simpa [List.isEmpty_iff] using hacc
        · exact ih [] t ht'
    · exact ih (c :: acc) t ht

/-- Tokens of Python `str.split()` are never empty. -/
theorem pySplit_ne_nil (s t : List Char) (ht : t ∈ pySplit s) : t ≠ [] :=
  pySplitAux_ne_nil s [] t ht

/-- Splitting the canonical `n`-token text yields exactly `n` tokens. -/
theorem pySplit_repTok : ∀ n, pySplit (repTok n) = List.replicate n ['a'] := by
  have ha : pyIsSpace 'a' = false := by decide
  have hsp : pyIsSpace ' ' = true := by decide
  intro n
  induction n with
  | zero => simp [repTok, pySplit, pySplitAux]
  | succ n ih =>
    have h1 : pySplitAux [] ('a' :: ' ' :: repTok n) = pySplitAux ['a'] (' ' :: repTok n) := by
      simp [pySplitAux, ha]
    have h2 : pySplitAux ['a'] (' ' :: repTok n) = ['a'] :: pySplitAux [] (repTok n) := by
      simp [pySplitAux, hsp]
    simp only [repTok, pySplit] at *
    rw [h1, h2, ih, List.replicate_succ]

/-- A left fold that appends pieces equals the flattened list of pieces. -/
theorem foldl_append_flatten {α : Type} (g : α → List Char) :
    ∀ (l : List α) (init : List Char),
      l.foldl (fun acc x => acc ++ g x) init = init ++ (l.map g).flatten := by
  intro l
  induction l with
  | nil => intro init; simp
  | cons x xs ih => intro init; simp [ih, List.append_assoc]

/-- The embedded-text loop concatenates the per-page texts in page order. -/
theorem embeddedText_eq_flatten (pages : List Page) :
    embeddedText pages = (pages.map (fun p => p.embedded.getD [])).flatten := by
  simpa [embeddedText] using foldl_append_flatten (fun p : Page => p.embedded.getD []) pages []

/-- The OCR loop appends the per-page OCR texts, each followed by a newline,
in page order. -/
theorem ocrAppend_eq_flatten (pages : List Page) (t : List Char) :
    ocrAppend pages t = t ++ (pages.map (fun p => p.ocr ++ ['\n'])).flatten :=
  foldl_append_flatten (fun p : Page => p.ocr ++ ['\n']) pages t

/-- Stripping yields the empty string exactly when every character is
whitespace. -/
theorem pyStrip_eq_nil_iff (s : List Char) :
    pyStrip s = [] ↔ ∀ c ∈ s, pyIsSpace c := by
  unfold pyStrip
  rw [List.rdropWhile_eq_nil_iff]
  constructor
  · intro h c hc
    rw [← List.takeWhile_append_dropWhile pyIsSpace (l := s)] at hc
    rcases List.mem_append.1 hc with h1 | h2
    · exact List.mem_takeWhile_imp h1
    · exact h c h2
  · intro h c hc
    refine h c ?_
    rw [← List.takeWhile_append_dropWhile pyIsSpace (l := s)]
    exact List.mem_append_right _ hc

/-- Stripping ignores an all-whitespace prefix. -/
theorem pyStrip_append_space (w x : List Char) (hw : ∀ c ∈ w, pyIsSpace c) :
    pyStrip (w ++ x) = pyStrip x := by
  unfold pyStrip
  rw [List.dropWhile_append, if_pos (by simp [List.dropWhile_eq_nil_iff.2 hw])]

/-- Stripping ignores a trailing whitespace character. -/
theorem pyStrip_concat_space (x : List Char) (c : Char) (hc : pyIsSpace c) :
    pyStrip (x ++ [c]) = pyStrip x := by
  unfold pyStrip
  rw [List.dropWhile_append]
  split
  · rename_i h
    rw [List.isEmpty_iff.1 h]
    simp [List.dropWhile_cons, hc]
  · exact List.rdropWhile_concat_pos pyIsSpace _ c hc

/-- After stripping, the leading character is not whitespace, so a second
leading strip is the identity. -/
theorem dropWhile_rdropWhile_self (s : List Char) :
    (List.rdropWhile pyIsSpace (s.dropWhile pyIsSpace)).dropWhile pyIsSpace
      = List.rdropWhile pyIsSpace (s.dropWhile pyIsSpace) := by
  rcases hr : List.rdropWhile pyIsSpace (s.dropWhile pyIsSpace) with - | ⟨x, t⟩
  · simp
  · have hpre := List.rdropWhile_prefix pyIsSpace (s.dropWhile pyIsSpace)
    rw [hr] at hpre
    obtain ⟨v, hv⟩ := hpre
    have hsd : s.dropWhile pyIsSpace = x :: (t ++ v) := by
      rw [← hv]; simp
    have hx : pyIsSpace x = false := by
      have hfix := List.dropWhile_idempotent pyIsSpace s
      rw [hsd, List.dropWhile_cons] at hfix
      by_cases hxx : pyIsSpace x = true
      · rw [if_pos hxx] at hfix
        have hlen := congrArg List.length hfix
        have hle := (List.dropWhile_sublist (l := t ++ v) pyIsSpace).length_le
        simp at hlen hle
        omega
      · simpa using hxx
    simp [List.dropWhile_cons, hx]

/-- Python `str.strip()` is idempotent. -/
theorem pyStrip_idem (s : List Char) : pyStrip (pyStrip s) = pyStrip s := by
  unfold pyStrip
  rw [dropWhile_rdropWhile_self, List.rdropWhile_idempotent]

/-- The source's trailing-newline concatenation agrees with the spec's
newline-separated concatenation, up to the final newline. -/
theorem flatten_map_newline (l : List (List Char)) :
    (l.map (fun x => x ++ ['\n'])).flatten =
      if l.isEmpty then [] else newlineSep l ++ ['\n'] := by
  induction l with
  | nil => simp
  | cons x xs ih =>
    cases xs with
    | nil => simp [newlineSep]
    | cons y ys =>
      simp only [List.map_cons, List.flatten_cons] at *
      rw [ih]
      simp [newlineSep, List.append_assoc]

/-- After stripping, the source's OCR concatenation equals the stripped
newline-separated OCR texts. -/
theorem pyStrip_ocr_newlineSep (l : List (List Char)) :
    pyStrip ((l.map (fun x => x ++ ['\n'])).flatten) = pyStrip (newlineSep l) := by
  rw [flatten_map_newline]
  cases l with
  | nil => simp [newlineSep]
  | cons x xs =>
    rw [if_neg (by simp)]
    exact pyStrip_concat_space _ '\n' (by decide)

/-- C1: for every resume text T and job description D, the scorer returns a
score equal to (number of true checks / 4) × 100, so the score is always one
of {0, 25, 50, 75, 100}, and identical inputs always yield the identical
(score, checks) pair. -/
theorem score_formula_and_range (T D : List Char) :
    (perform_ats_checks T D).1 =
        (checksTrueCount (perform_ats_checks T D).2 : ℚ) / 4 * 100
    ∧ ((perform_ats_checks T D).1 = 0 ∨ (perform_ats_checks T D).1 = 25 ∨
        (perform_ats_checks T D).1 = 50 ∨ (perform_ats_checks T D).1 = 75 ∨
        (perform_ats_checks T D).1 = 100)
    ∧ perform_ats_checks T D = perform_ats_checks T D := by
  have h : (perform_ats_checks T D).1 =
      (checksTrueCount (perform_ats_checks T D).2 : ℚ) / 4 * 100 := rfl
  refine ⟨h, ?_, rfl⟩
  rw [h]
  rcases (perform_ats_checks T D).2 with ⟨b1, b2, b3, b4⟩
  cases b1 <;> cases b2 <;> cases b3 <;> cases b4 <;> simp [checksTrueCount] <;> norm_num

/-- C7: the KeywordsPresent check is true iff at least one
whitespace-delimited token of the lower-cased job description occurs as a
substring of the lower-cased resume text; for an empty job description it is
false for every resume text. -/
theorem keywords_present_spec (T D : List Char) :
    ((perform_ats_checks T D).2.keywordsPresent = true ↔
        ∃ kw ∈ pySplit (pyLower D), ∃ u v, pyLower T = u ++ kw ++ v)
    ∧ (perform_ats_checks T []).2.keywordsPresent = false := by
  constructor
  · have h : (perform_ats_checks T D).2.keywordsPresent =
        (pySplit (pyLower D)).any (fun kw => containsSub kw (pyLower T)) := rfl
    rw [h]
    simp only [List.any_eq_true, containsSub_iff]
  · rfl

/-- C8: the KeySections check is true iff all three of the substrings
"summary", "experience", "education" occur (case-insensitively) in the
resume text, and false if any one is missing. -/
theorem key_sections_spec (T D : List Char) :
    (perform_ats_checks T D).2.keySections = true ↔
      ((∃ u v, pyLower T = u ++ "summary".data ++ v)
        ∧ (∃ u v, pyLower T = u ++ "experience".data ++ v)
        ∧ (∃ u v, pyLower T = u ++ "education".data ++ v)) := by
  have h : (perform_ats_checks T D).2.keySections =
      ["summary".data, "experience".data, "education".data].all
        (fun sec => containsSub sec (pyLower T)) := rfl
  rw [h]
  simp only [List.all_cons, List.all_nil, Bool.and_eq_true, Bool.and_true,
    containsSub_iff, and_true]

/-- C9: the ReadableLength check is true iff splitting the resume text on
whitespace yields fewer than 1000 tokens; a text with exactly 999 tokens
passes and a text with exactly 1000 tokens fails. -/
theorem readable_length_spec (T D : List Char) :
    ((perform_ats_checks T D).2.readableLength = true ↔ (pySplit T).length < 1000)
    ∧ ((pySplit T).length = 999 → (perform_ats_checks T D).2.readableLength = true)
    ∧ ((pySplit T).length = 1000 → (perform_ats_checks T D).2.readableLength = false) := by
  have h : (perform_ats_checks T D).2.readableLength =
      decide ((pySplit T).length < 1000) := rfl
  refine ⟨by rw [h]; simp, fun h9 => ?_, fun h10 => ?_⟩
  · rw [h]; simp [h9]
  · rw [h]; simp [h10]

/-- C9 witness: concrete texts with exactly 999 and exactly 1000 tokens. -/
theorem readable_length_spec_witness :
    (perform_ats_checks (repTok 999) []).2.readableLength = true
    ∧ (perform_ats_checks (repTok 1000) []).2.readableLength = false := by
  constructor
  · exact (readable_length_spec (repTok 999) []).2.1
      (by rw [pySplit_repTok, List.length_replicate])
  · exact (readable_length_spec (repTok 1000) []).2.2
      (by rw [pySplit_repTok, List.length_replicate])

/-- C10: for every job description D, scoring the empty resume text yields
exactly score 50, with NoComplexFormatting and ReadableLength true and
KeywordsPresent and KeySections false. -/
theorem empty_resume_half_score (D : List Char) :
    (perform_ats_checks [] D).1 = 50
    ∧ (perform_ats_checks [] D).2 = ⟨false, true, false, true⟩ := by
  have hkw : (pySplit (pyLower D)).any (fun kw => containsSub kw (pyLower [])) = false := by
    rw [List.any_eq_false]
    intro kw hkw
    have hne := pySplit_ne_nil (pyLower D) kw hkw
    cases kw with
    | nil => exact absurd rfl hne
    | cons a as => simp [containsSub, pyLower]
  have hrepr : (perform_ats_checks [] D).2 =
      ⟨(pySplit (pyLower D)).any (fun kw => containsSub kw (pyLower [])),
        !(containsSub "table".data (pyLower []) || containsSub "image".data (pyLower [])),
        ["summary".data, "experience".data, "education".data].all
          (fun sec => containsSub sec (pyLower [])),
        decide ((pySplit ([] : List Char)).length < 1000)⟩ := rfl
  have hch : (perform_ats_checks [] D).2 = ⟨false, true, false, true⟩ := by
    rw [hrepr, hkw]
    decide
  refine ⟨?_, hch⟩
  have h : (perform_ats_checks [] D).1 =
      (checksTrueCount (perform_ats_checks [] D).2 : ℚ) / 4 * 100 := rfl
  rw [h, hch]
  norm_num [checksTrueCount]

/-- C3: the extractor never returns an empty success — its result is either
a non-empty whitespace-trimmed text or the failure outcome `none` — and when
the trimmed OCR-derived result is still empty it returns the failure
outcome. -/
theorem extract_trimmed_nonempty (f : UploadedFile) (pages : List Page) :
    (extract_text_from_pdf f = none
      ∨ ∃ t, extract_text_from_pdf f = some t ∧ pyStrip t = t ∧ t ≠ [])
    ∧ (f.parsed = .ok pages → f.pageError = none → f.ocrError = none →
        pyStrip (embeddedText pages) = [] →
        pyStrip (ocrAppend pages (embeddedText pages)) = [] →
        extract_text_from_pdf f = none) := by
  obtain ⟨fp, fpe, foe⟩ := f
  constructor
  · cases fp with
    | error e => exact Or.inl rfl
    | ok pgs =>
      cases fpe with
      | some m => exact Or.inl rfl
      | none =>
        by_cases h1 : pyStrip (embeddedText pgs) = []
        · cases foe with
          | some m =>
            left
            simp [extract_text_from_pdf, h1]
          | none =>
            by_cases h2 : pyStrip (ocrAppend pgs (embeddedText pgs)) = []
            · left
              simp [extract_text_from_pdf, h1, h2]
            · right
              refine ⟨pyStrip (ocrAppend pgs (embeddedText pgs)), ?_, pyStrip_idem _, h2⟩
              simp [extract_text_from_pdf, h1, h2]
        · right
          refine ⟨pyStrip (embeddedText pgs), ?_, pyStrip_idem _, h1⟩
          simp [extract_text_from_pdf, h1]
  · rintro hp hpe hoe h1 h2
    simp only at hp hpe hoe
    subst hp hpe hoe
    simp [extract_text_from_pdf, h1, h2]

/-- C3 witness: a one-page PDF with no embedded text and empty OCR output
yields the failure outcome. -/
theorem extract_trimmed_nonempty_witness :
    extract_text_from_pdf ⟨.ok [⟨none, []⟩], none, none⟩ = none :=
  (extract_trimmed_nonempty ⟨.ok [⟨none, []⟩], none, none⟩ [⟨none, []⟩]).2
    rfl rfl rfl (by decide) (by decide)

/-- C4: a page-level embedded-text extraction error (a `None` return from
`page.extract_text()`) is treated exactly as an empty string for that page —
replacing every such error by an empty page leaves the extractor's result
unchanged — and the page texts are concatenated in page order. -/
theorem page_error_as_empty_page (pages : List Page) (pe oe : Option (List Char)) :
    extract_text_from_pdf ⟨.ok (pages.map normPage), pe, oe⟩ =
        extract_text_from_pdf ⟨.ok pages, pe, oe⟩
    ∧ embeddedText pages = (pages.map (fun p => p.embedded.getD [])).flatten := by
  refine ⟨?_, embeddedText_eq_flatten pages⟩
  have hemb : embeddedText (pages.map normPage) = embeddedText pages := by
    rw [embeddedText_eq_flatten, embeddedText_eq_flatten, List.map_map]
    rfl
  have hocr : ∀ t, ocrAppend (pages.map normPage) t = ocrAppend pages t := by
    intro t
    rw [ocrAppend_eq_flatten, ocrAppend_eq_flatten, List.map_map]
    rfl
  cases pe with
  | some m => rfl
  | none =>
    simp only [extract_text_from_pdf, hemb, hocr]

/-- C5: if the trimmed concatenated embedded text is non-empty it is
returned without consulting the OCR inputs; if it is empty, the OCR texts of
all pages are concatenated in page order with a newline separator between
pages, and the trimmed result is returned when non-empty. -/
theorem embedded_priority_and_ocr_fallback (pages : List Page) (oe : Option (List Char)) :
    (pyStrip (embeddedText pages) ≠ [] →
        extract_text_from_pdf ⟨.ok pages, none, oe⟩ =
          some (pyStrip (embeddedText pages)))
    ∧ (pyStrip (embeddedText pages) = [] →
        extract_text_from_pdf ⟨.ok pages, none, none⟩ =
          if pyStrip (newlineSep (pages.map Page.ocr)) = [] then none
          else some (pyStrip (newlineSep (pages.map Page.ocr)))) := by
  constructor
  · intro h
    simp [extract_text_from_pdf, h]
  · intro h
    have hmap : pages.map (fun p => p.ocr ++ ['\n']) =
        (pages.map Page.ocr).map (fun x => x ++ ['\n']) := by
      rw [List.map_map]
      rfl
    have hkey : pyStrip (ocrAppend pages (embeddedText pages)) =
        pyStrip (newlineSep (pages.map Page.ocr)) := by
      rw [ocrAppend_eq_flatten,
        pyStrip_append_space _ _ ((pyStrip_eq_nil_iff _).1 h), hmap,
        pyStrip_ocr_newlineSep]
    simp only [extract_text_from_pdf, h, if_pos]
    rw [hkey]

/-- C5 witness: a page with embedded text returns it even when OCR would
fail, and a page with blank embedded text falls back to its OCR text. -/
theorem embedded_priority_and_ocr_fallback_witness :
    extract_text_from_pdf ⟨.ok [⟨some ['h', 'i'], ['z']⟩], none, some ['e']⟩ =
        some ['h', 'i']
    ∧ extract_text_from_pdf ⟨.ok [⟨some [], ['o', 'c', 'r']⟩], none, none⟩ =
        some ['o', 'c', 'r'] := by
  constructor
  · have h := (embedded_priority_and_ocr_fallback [⟨some ['h', 'i'], ['z']⟩]
      (some ['e'])).1 (by decide)
    rw [h]
    decide
  · have h := (embedded_priority_and_ocr_fallback [⟨some [], ['o', 'c', 'r']⟩]
      none).2 (by decide)
    rw [h]
    decide

/-- C6: every modelled fault — a parse exception (including the one raised
on a zero-length byte stream), a page-loop exception, or an OCR exception in
the fallback — is caught and mapped to the typed failure outcome `none`;
the embedding is a total function, so no raw exception propagates. -/
theorem extractor_faults_to_failure (e : List Char) (pe oe : Option (List Char))
    (pages : List Page) :
    extract_text_from_pdf ⟨.error e, pe, oe⟩ = none
    ∧ extract_text_from_pdf ⟨.ok pages, some e, oe⟩ = none
    ∧ (pyStrip (embeddedText pages) = [] →
        extract_text_from_pdf ⟨.ok pages, none, some e⟩ = none) := by
  refine ⟨rfl, rfl, fun h => ?_⟩
  simp [extract_text_from_pdf, h]

/-- C6 witness: an OCR exception on a PDF without embedded text yields the
failure outcome. -/
theorem extractor_faults_to_failure_witness :
    extract_text_from_pdf ⟨.ok [⟨none, ['x']⟩], none, some ['b']⟩ = none :=
  (extractor_faults_to_failure ['b'] none none [⟨none, ['x']⟩]).2.2 (by decide)

/-- C2 counterexample: an empty response from the generation collaborator is
replaced by the placeholder text "No response from Gemini API." and flows
through the success path of `main` (displayed as analysis and exportable),
so it is not surfaced as a GenerationFailure. -/
theorem empty_response_shown_as_success :
    get_gemini_response (.returned (some [])) = some noResponseMessage
    ∧ displayGeneration (get_gemini_response (.returned (some []))) =
        .analysisShown noResponseMessage
    ∧ noResponseMessage ≠ [] := by
  refine ⟨rfl, ?_, by decide⟩
  decide

/-- C2 amended: a raising collaborator is surfaced as the user-visible
generation failure; an empty or absent response is converted to the fixed
placeholder text and surfaced through the success path; the generation step
never returns an empty success string. -/
theorem generation_failure_amended (msg t : List Char) (o : GenOutcome) :
    (get_gemini_response (.raised msg) = none
      ∧ displayGeneration (get_gemini_response (.raised msg)) = .generationErrorShown)
    ∧ (get_gemini_response (.returned none) = some noResponseMessage
      ∧ get_gemini_response (.returned (some [])) = some noResponseMessage)
    ∧ (get_gemini_response o = some t → t ≠ []) := by
  refine ⟨⟨rfl, rfl⟩, ⟨rfl, rfl⟩, fun h => ?_⟩
  cases o with
  | raised m => simp [get_gemini_response] at h
  | returned r =>
    cases r with
    | none =>
      simp only [get_gemini_response, Option.some.injEq] at h
      rw [← h]
      decide
    | some s =>
      simp only [get_gemini_response, Option.some.injEq] at h
      by_cases hs : s.isEmpty
      · rw [if_pos hs] at h
        rw [← h]
        decide
      · rw [if_neg hs] at h
        rw [← h]
        simpa [List.isEmpty_iff] using hs

/-- C2 amended witness: a non-empty response is returned unchanged and is
non-empty. -/
theorem generation_failure_amended_witness : (['a'] : List Char) ≠ [] :=
  (generation_failure_amended [] ['a'] (.returned (some ['a']))).2.2 rfl

end ATS
